import Mathlib

/-!
Shallow embedding of the Smart-Workspace retrieval engine.

The embedding covers, translated directly from the Python sources:
  * `src/faiss_service/faiss_service.py` — the vector index service
    (`ensure_index_dim`, `upsert`, `search`, `delete`);
  * `src/app/api/session_manager.py` — the `SessionManager` operations;
  * `src/app/api/main.py` — the `query` orchestrator (merge step included);

Machine floats are modelled as rationals (`ℚ`).  Calls into external
libraries whose numeric behaviour the claims never depend on
(`faiss.normalize_L2`, the FAISS top-k selection `index.search` and the
SHA-1 based `chunkid_to_int64`) are gathered in a `FaissLib` parameter:
every theorem quantifies over it, and concrete witnesses instantiate it
with a simple executable stand-in (`testLib`).  Structural FAISS
operations with exact documented semantics are embedded directly:
`IndexIDMap.add_with_ids` appends (id, vector) rows without checking for
already-present ids, and `remove_ids` removes every row whose id is in
the given set.  MongoDB collections are embedded as Lean lists;
`replace_one(..., upsert=True)` keyed on `_id` replaces the (unique)
matching entry or appends, `delete_many` filters, `update_one` updates
the first matching document.  Python truthiness of strings and
optional strings is modelled explicitly (`None` and `""` are falsy).
-/

namespace SmartWorkspace

/-- Vectors: float32 arrays modelled as lists of rationals. -/
abbrev Vec := List ℚ

/-- A raised `fastapi.HTTPException`: status code plus detail string. -/
structure HTTPError where
  status : Nat
  detail : String
deriving DecidableEq

/-- The in-process FAISS index: `faiss.IndexIDMap(faiss.IndexFlatIP(d))`.
`entries` is the ordered sequence of (int64 id, stored vector) rows, so
`ntotal = entries.length`. -/
structure FaissIndex where
  d : Nat
  entries : List (Int × Vec)
deriving DecidableEq

/-- One document of the `faiss_mappings` Mongo collection:
`{_id, chunk_id, doc_id, user_id}` (key = `_id` is the int64 key). -/
structure IdMapping where
  key : Int
  chunk_id : String
  doc_id : String
  user_id : Option String
deriving DecidableEq

/-- One document of the `chunks` Mongo collection, as read by `search`
(only the fields the service touches). -/
structure ChunkRec where
  chunk_id : String
  text : String
deriving DecidableEq

/-- Whole mutable state of the faiss service: the global `index`
(`None` before first initialization) plus the Mongo collections it
reads and writes. -/
structure FaissState where
  index : Option FaissIndex
  mappings : List IdMapping
  chunks : List ChunkRec
deriving DecidableEq

/-- External library primitives whose numeric behaviour the service
relies on but the claims do not: `faiss.normalize_L2` (in-place L2
normalization, involves a square root), the FAISS inner-product top-k
selection performed by `index.search` (returns (score, id) rows, with
`-1` ids used as padding), and `chunkid_to_int64` (first 8 bytes of the
SHA-1 digest of the chunk id as a signed int64 — the claims rely only on
it being a pure function). -/
structure FaissLib where
  normalize : Vec → Vec
  topk : List (Int × Vec) → Vec → Nat → List (ℚ × Int)
  chunkKey : String → Int

/-- Error raised by `ensure_index_dim` when `target_dim <= 0`. -/
def posDimErr : HTTPError :=
  ⟨400, "Embedding vector dimension must be positive"⟩

/-- Error raised by `ensure_index_dim` on a dimension mismatch with a
non-empty index and no permission to reset; it names both dimensions
and instructs an explicit rebuild. -/
def dimMismatchErr (d target : Nat) : HTTPError :=
  ⟨500, "FAISS index dimension " ++ toString d ++ " mismatches embedding length "
    ++ toString target ++ "; drop /data/faiss.index and reingest."⟩

/-- Embeds `reset_index`: replaces the global index with a fresh empty
`IndexIDMap(IndexFlatIP(target_dim))` (the on-disk snapshot removal has
no further observable effect in this model). -/
def reset_index (st : FaissState) (target_dim : Nat) : FaissState :=
  { st with index := some ⟨target_dim, []⟩ }

/-- Embeds `ensure_index_dim(target_dim, allow_reset)`.  The
`configured_dim` computed from the `EMBED_DIM` environment variable is
immediately overridden to `target_dim` whenever it differs, so it always
equals `target_dim` by the time it is used; the environment variable is
therefore not part of the state.  A returned error corresponds to a
`raise`, which leaves the global state untouched. -/
def ensure_index_dim (st : FaissState) (target_dim : Nat) (allow_reset : Bool) :
    Except HTTPError FaissState :=
  if target_dim = 0 then .error posDimErr
  else
    match st.index with
    | none => .ok (reset_index st target_dim)
    | some ix =>
        if ix.d = target_dim then .ok st
        else if allow_reset || ix.entries.isEmpty then .ok (reset_index st target_dim)
        else .error (dimMismatchErr ix.d target_dim)

/-- Embeds `mongo.faiss_mappings.replace_one({"_id": m._id}, m, upsert=True)`:
replace the entry with the same `_id` if present (Mongo `_id` is unique,
so at most one matches), append otherwise. -/
def replaceOneMapping (ms : List IdMapping) (m : IdMapping) : List IdMapping :=
  if ms.any (fun x => x.key == m.key) then
    ms.map (fun x => if x.key == m.key then m else x)
  else ms ++ [m]

/-- Loop body of `upsert`: walks the chunk list, running
`ensure_index_dim(len(emb), allow_reset=True)` then `normalize_L2` for
each chunk while accumulating the id/vector rows and the mapping
documents; afterwards replaces the mappings, `vstack`s the vectors
(raising if the batch is empty or mixes lengths — modelled as the
corresponding 500) and appends the rows to the index via
`add_with_ids`, which never deduplicates ids. -/
def upsertGo (lib : FaissLib) (doc_id : String) (user_id : Option String)
    (st : FaissState) (rows : List (Int × Vec)) (maps : List IdMapping) :
    List (String × Vec) → FaissState × Except HTTPError Nat
  | [] =>
      match rows with
      | [] => (st, .error ⟨500, "need at least one array to concatenate"⟩)
      | (k0, v0) :: rest =>
          let st1 : FaissState := { st with mappings := maps.foldl replaceOneMapping st.mappings }
          if rest.all (fun p => p.2.length == v0.length) then
            match st1.index with
            | none =>
                -- unreachable: ensure_index_dim initialized the index for every chunk
                (st1, .error ⟨500, "NoneType object has no attribute add_with_ids"⟩)
            | some ix =>
                ({ st1 with index := some ⟨ix.d, ix.entries ++ (k0, v0) :: rest⟩ },
                  .ok (rows.length))
          else (st1, .error ⟨500, "all the input array dimensions must match"⟩)
  | (cid, emb) :: rest =>
      match ensure_index_dim st emb.length true with
      | .error e => (st, .error e)
      | .ok st' =>
          upsertGo lib doc_id user_id st'
            (rows ++ [(lib.chunkKey cid, lib.normalize emb)])
            (maps ++ [⟨lib.chunkKey cid, cid, doc_id, user_id⟩]) rest

/-- Embeds the `/upsert` endpoint.  Returns the final service state and
either the `inserted` count or the raised error.  Note the count
returned is `len(chunks)`, which equals the number of accumulated rows. -/
def upsert (lib : FaissLib) (st : FaissState) (doc_id : String)
    (user_id : Option String) (chunks : List (String × Vec)) :
    FaissState × Except HTTPError Nat :=
  upsertGo lib doc_id user_id st [] [] chunks

/-- One entry of the `results` list returned by `/search`. -/
structure SearchResult where
  chunk_id : String
  doc_id : String
  text : String
  score : ℚ
deriving DecidableEq

/-- Python truthiness of an optional string: `None` and `""` are falsy. -/
def optStrTruthy : Option String → Bool
  | none => false
  | some s => !s.isEmpty

/-- Result-building loop of `/search`: for each (score, id) row, skip
`-1` padding, skip rows with no resolvable mapping, skip rows whose
mapping owner differs from a truthy `user_id` filter, and otherwise
append `{chunk_id, doc_id, text, score}` with the text looked up in the
`chunks` collection (empty string when absent). -/
def searchCollect (st : FaissState) (user_id : Option String) :
    List (ℚ × Int) → List SearchResult
  | [] => []
  | (score, idx) :: rest =>
      if idx == -1 then searchCollect st user_id rest
      else
        match st.mappings.find? (fun m => m.key == idx) with
        | none => searchCollect st user_id rest
        | some m =>
            if optStrTruthy user_id && (m.user_id != user_id) then
              searchCollect st user_id rest
            else
              let text := match st.chunks.find? (fun c => c.chunk_id == m.chunk_id) with
                | some c => c.text
                | none => ""
              ⟨m.chunk_id, m.doc_id, text, score⟩ :: searchCollect st user_id rest

/-- Embeds the `/search` endpoint: `ensure_index_dim(len(emb), allow_reset=False)`,
normalize the query, run the FAISS top-k selection, then filter and
resolve the rows.  A raised error leaves the state unchanged. -/
def search (lib : FaissLib) (st : FaissState) (embedding : Vec) (top_k : Nat)
    (user_id : Option String) : FaissState × Except HTTPError (List SearchResult) :=
  match ensure_index_dim st embedding.length false with
  | .error e => (st, .error e)
  | .ok st' =>
      match st'.index with
      | none =>
          -- unreachable: ensure_index_dim initialized the index
          (st', .error ⟨500, "NoneType object has no attribute search"⟩)
      | some ix =>
          let q := lib.normalize embedding
          let rows := lib.topk ix.entries q top_k
          (st', .ok (searchCollect st' user_id rows))

/-- Embeds the `/delete` endpoint: find the mappings for `doc_id`;
if none, report 0 with no error; otherwise `remove_ids` drops every
index row whose id belongs to one of them, and `delete_many` removes
the mapping documents, whose count is returned. -/
def delete (st : FaissState) (doc_id : String) : FaissState × Nat × String :=
  let ms := st.mappings.filter (fun m => m.doc_id == doc_id)
  if ms.isEmpty then (st, 0, "No vectors found for this document")
  else
    let ids := ms.map (·.key)
    let st1 : FaissState :=
      match st.index with
      | some ix =>
          if 0 < ix.entries.length then
            { st with index := some ⟨ix.d, ix.entries.filter (fun e => !(ids.contains e.1))⟩ }
          else st
      | none => st
    let deleted := ms.length
    ({ st1 with mappings := st1.mappings.filter (fun m => m.doc_id != doc_id) },
      deleted, "Deleted " ++ toString deleted ++ " vectors")

/-- A concrete executable instantiation of the library primitives, used
by witnesses and counterexamples: identity normalization, a top-k that
returns the first `k` rows (similarity values are irrelevant to every
claim, so a constant score keeps the kernel evaluation cheap), and a
base-256 fold of the chunk id bytes as the integer key. -/
def testLib : FaissLib where
  normalize := id
  topk := fun entries _q k => (entries.take k).map (fun e => ((0 : ℚ), e.1))
  chunkKey := fun s => (s.data.map Char.toNat).foldl (fun a c => a * 256 + (c : Int)) 0

/-- A cited source of an assistant Turn: one element of the `sources`
list built by the orchestrator, `{doc_id, chunk_id, score}`. -/
structure SourceRef where
  doc_id : String
  chunk_id : String
  score : Option ℚ
deriving DecidableEq

/-- One entry of a session's `conversation_history`.  The wall-clock
`timestamp` field carries no information the claims depend on and is
omitted from the shallow embedding. -/
structure Turn where
  role : String
  content : String
  sources : Option (List SourceRef)
deriving DecidableEq

/-- One document of the `sessions` Mongo collection (timestamps
omitted, metadata inlined). -/
structure Session where
  session_id : String
  user_id : String
  conversation_history : List Turn
  total_queries : Nat
  document_references : List String
deriving DecidableEq

/-- The `sessions` Mongo collection, in insertion order. -/
abbrev SessionStore := List Session

/-- Embeds `SessionManager.create_session`: the fresh random UUID is
passed in as `sid` (nondeterminism externalized).  The initial query
appends a first user Turn and sets `total_queries = 1` only when it is
truthy (`if initial_query:` — `None` and `""` are falsy). -/
def newSessionDoc (sid user_id : String) (initial_query : Option String) : Session :=
  match initial_query with
  | some q =>
      if q.isEmpty then ⟨sid, user_id, [], 0, []⟩
      else ⟨sid, user_id, [⟨"user", q, none⟩], 1, []⟩
  | none => ⟨sid, user_id, [], 0, []⟩

/-- The `insert_one` call of `create_session`: appends the new session
document to the collection. -/
def create_session (store : SessionStore) (sid user_id : String)
    (initial_query : Option String) : SessionStore :=
  store ++ [newSessionDoc sid user_id initial_query]

/-- Embeds `SessionManager.get_session`: `find_one` on both
`session_id` and `user_id`. -/
def get_session (store : SessionStore) (sid user_id : String) : Option Session :=
  store.find? (fun s => s.session_id == sid && s.user_id == user_id)

/-- Mongo `update_one`: applies `f` to the first document matching both
identifiers; the Bool reports `modified_count > 0`. -/
def updateFirst (store : SessionStore) (sid user_id : String)
    (f : Session → Session) : SessionStore × Bool :=
  match store with
  | [] => ([], false)
  | s :: rest =>
      if s.session_id == sid && s.user_id == user_id then (f s :: rest, true)
      else
        let r := updateFirst rest sid user_id f
        (s :: r.1, r.2)

/-- Mongo `$addToSet` with `$each`: unions `ds` into `refs` keeping
insertion order and skipping duplicates. -/
def addToSet (refs : List String) (ds : List String) : List String :=
  ds.foldl (fun acc d => if acc.contains d then acc else acc ++ [d]) refs

/-- Embeds `SessionManager.add_message`: pushes a Turn (whose `sources`
field is only set when the argument is truthy — a non-empty list),
increments `total_queries` for user messages, and unions `doc_ids`
into `metadata.document_references` when truthy. -/
def add_message (store : SessionStore) (sid user_id role content : String)
    (sources : Option (List SourceRef)) (doc_ids : Option (List String)) :
    SessionStore × Bool :=
  let msgSources : Option (List SourceRef) :=
    match sources with
    | some l => if l.isEmpty then none else some l
    | none => none
  let turn : Turn := ⟨role, content, msgSources⟩
  updateFirst store sid user_id (fun s =>
    { s with
      conversation_history := s.conversation_history ++ [turn]
      total_queries := if role == "user" then s.total_queries + 1 else s.total_queries
      document_references :=
        match doc_ids with
        | some ds => if ds.isEmpty then s.document_references else addToSet s.document_references ds
        | none => s.document_references })

/-- Python `history[-n:]`: the last `n` elements of a list. -/
def takeLast (n : Nat) (l : List α) : List α := l.drop (l.length - n)

/-- Embeds `SessionManager.get_conversation_history`: empty when the
session is not found; otherwise the history, sliced to its last `limit`
entries only when `limit` is truthy and positive (`if limit and limit > 0`,
so `None`, `0` and negative limits all leave the history whole). -/
def get_conversation_history (store : SessionStore) (sid user_id : String)
    (limit : Option Int) : List Turn :=
  match get_session store sid user_id with
  | none => []
  | some s =>
      match limit with
      | some l => if 0 < l then takeLast l.toNat s.conversation_history else s.conversation_history
      | none => s.conversation_history

/-- Python `str.upper()` on the role strings (ASCII only, which covers
the roles `user` and `assistant`), defined by structural recursion on
the character list so the kernel can evaluate it. -/
def pyUpper (s : String) : String := ⟨s.data.map Char.toUpper⟩

/-- Embeds `SessionManager.build_context_prompt`: fetches the history
limited to `max_history * 2` raw entries, returns `""` when it is
empty, and otherwise joins the fixed header, one upper-cased
`ROLE: content` line per entry, and a trailing empty separator line. -/
def build_context_prompt (store : SessionStore) (sid user_id : String)
    (max_history : Int) : String :=
  let history := get_conversation_history store sid user_id (some (max_history * 2))
  if history.isEmpty then ""
  else
    String.intercalate "\n"
      ("PREVIOUS CONVERSATION:" :: history.map (fun m => pyUpper m.role ++ ": " ++ m.content) ++ [""])

/-- A retrieval hit as the orchestrator sees it: the dicts returned by
the faiss client and by `MongoClientWrapper.text_search`.  Both always
carry a `score` key (the faiss service always sets a float; the sparse
path `setdefault`s it, possibly to `None`), so `score` is an optional
rational where `none` models Python `None`. -/
structure Hit where
  chunk_id : String
  doc_id : String
  text : String
  score : Option ℚ
deriving DecidableEq

/-- Score of a hit once known numeric (Python float behind an
all-scores-present hypothesis). -/
def getScore (h : Hit) : ℚ := h.score.getD 0

/-- Python comparison `a > b` on two score values that may be `None`:
comparing `None` with anything raises `TypeError`, surfaced as an
error. -/
def pyGtOpt (a b : Option ℚ) : Except String Bool :=
  match a, b with
  | some x, some y => .ok (decide (y < x))
  | _, _ => .error "TypeError: '>' not supported between instances of 'NoneType' and 'float'"

/-- Lookup in an insertion-ordered association list (a Python dict). -/
def assocFind (m : List (String × Hit)) (k : String) : Option Hit :=
  (m.find? (fun p => p.1 == k)).map Prod.snd

/-- Assignment `m[k] = v` on an insertion-ordered association list:
replaces in place when the key is present, appends otherwise (Python
dicts keep the original position of an updated key). -/
def assocSet (m : List (String × Hit)) (k : String) (v : Hit) : List (String × Hit) :=
  if m.any (fun p => p.1 == k) then m.map (fun p => if p.1 == k then (k, v) else p)
  else m ++ [(k, v)]

/-- One iteration of the merge loop in `query`:
`if cid not in cand_map or h["score"] > cand_map[cid]["score"]: cand_map[cid] = h`
(the `.get("score", 0)` defaults never fire because both result sets
always carry the key; the comparison itself can raise `TypeError` when
a `None` score is involved). -/
def mergeStep (m : List (String × Hit)) (h : Hit) : Except String (List (String × Hit)) :=
  match assocFind m h.chunk_id with
  | none => .ok (assocSet m h.chunk_id h)
  | some old => do
      let b ← pyGtOpt h.score old.score
      pure (if b then assocSet m h.chunk_id h else m)

/-- The merge step of `query`: folds the loop body over
`dense_hits + sparse_hits` starting from the empty dict. -/
def mergeHits (dense sparse : List Hit) : Except String (List (String × Hit)) :=
  (dense ++ sparse).foldlM mergeStep []

/-- The request body of `/query`. -/
structure QueryRequest where
  user_id : String
  query_text : String
  session_id : Option String
deriving DecidableEq

/-- The response body of `/query`. -/
structure QueryResponse where
  answer : String
  sources : List SourceRef
  session_id : String
deriving DecidableEq

/-- The external collaborators `query` calls, each able to fail (any
exception a client raises is caught by the endpoint and surfaced as a
500 with the exception text). -/
structure Collabs where
  embed_query : String → Except String Vec
  faiss_search : Vec → Nat → String → Except String (List Hit)
  text_search : String → String → Nat → Except String (List Hit)
  rerank_candidates : String → List Hit → Except String (List Hit)
  generate_answer : String → List String → String → Except String String

/-- Models `list(set(xs))`: duplicates removed (first occurrence kept;
the real Python set order is arbitrary, which no claim depends on). -/
def dedup (xs : List String) : List String :=
  xs.foldl (fun acc d => if acc.contains d then acc else acc ++ [d]) []

/-- Body of the `/query` endpoint after the session has been resolved
(state `store` already holds the user Turn): builds the conversation
context, then runs embedding, dense search, sparse search, merge,
rerank, generation in order, aborting with the surfaced error and the
current store on the first failure; only after generation succeeds is
the assistant Turn appended. -/
def queryBody (c : Collabs) (store : SessionStore) (sid : String)
    (req : QueryRequest) : SessionStore × Except HTTPError QueryResponse :=
  let ctx := build_context_prompt store sid req.user_id 5
  match c.embed_query req.query_text with
  | .error e => (store, .error ⟨500, e⟩)
  | .ok q_emb =>
  match c.faiss_search q_emb 10 req.user_id with
  | .error e => (store, .error ⟨500, e⟩)
  | .ok dense_hits =>
  match c.text_search req.query_text req.user_id 10 with
  | .error e => (store, .error ⟨500, e⟩)
  | .ok sparse_hits =>
  match mergeHits dense_hits sparse_hits with
  | .error e => (store, .error ⟨500, e⟩)
  | .ok cand_map =>
  let candidates := cand_map.map Prod.snd
  match c.rerank_candidates req.query_text candidates with
  | .error e => (store, .error ⟨500, e⟩)
  | .ok ranked =>
  let top_k := ranked.take 3
  let contexts := top_k.map Hit.text
  match c.generate_answer req.query_text contexts ctx with
  | .error e => (store, .error ⟨500, e⟩)
  | .ok answer =>
  let sources := top_k.map (fun h => SourceRef.mk h.doc_id h.chunk_id h.score)
  let doc_ids := dedup (sources.map SourceRef.doc_id)
  let store2 := (add_message store sid req.user_id "assistant" answer (some sources) (some doc_ids)).1
  (store2, .ok ⟨answer, sources, sid⟩)

/-- Embeds the `/query` endpoint.  `genSid` is the fresh UUID that
`create_session` would draw.  When `req.session_id` is falsy (`None` or
`""`) a new session is created with the query as initial Turn;
otherwise the session is validated (404 when it does not exist or
belongs to another user) and the user Turn is appended immediately —
before any collaborator runs. -/
def query (c : Collabs) (genSid : String) (store : SessionStore)
    (req : QueryRequest) : SessionStore × Except HTTPError QueryResponse :=
  let continuing : Option String :=
    match req.session_id with
    | some s => if s.isEmpty then none else some s
    | none => none
  match continuing with
  | none =>
      let store1 := create_session store genSid req.user_id (some req.query_text)
      queryBody c store1 genSid req
  | some sid =>
      match get_session store sid req.user_id with
      | none =>
          (store, .error ⟨404, "Session " ++ sid ++ " not found or doesn't belong to user "
            ++ req.user_id⟩)
      | some _ =>
          let store1 := (add_message store sid req.user_id "user" req.query_text none none).1
          queryBody c store1 sid req

/-- Total (error-free) variant of the merge loop body, valid once every
score is known numeric: keep the incumbent unless the new occurrence
scores strictly higher. -/
def mergeStepB (m : List (String × Hit)) (h : Hit) : List (String × Hit) :=
  match assocFind m h.chunk_id with
  | none => assocSet m h.chunk_id h
  | some old => if getScore old < getScore h then assocSet m h.chunk_id h else m

/-- Per-key view of the merge loop: the running winner for one
chunk_id, replaced only by a strictly higher score. -/
def step1 (acc : Option Hit) (h : Hit) : Option Hit :=
  match acc with
  | none => some h
  | some old => if getScore old < getScore h then some h else some old

/-- Predicate: `h` scores at least as high as every hit of `l`. -/
def allLe (l : List Hit) (h : Hit) : Bool :=
  l.all (fun h2 => decide (getScore h2 ≤ getScore h))

/-- Specification of the merge winner, taken from the claim's words:
the first occurrence in the list whose score is highest (ties keep the
first seen). -/
def firstBest (l : List Hit) : Option Hit := l.find? (allLe l)

/-- Specification of `build_context`, taken from the claim's words: the
empty string when the session has no conversation history, otherwise
the fixed header followed by the at most `2 * max_turns` most recent
raw history entries, each rendered as an upper-cased `ROLE: content`
line (with the code's trailing separator line). -/
def contextSpec (store : SessionStore) (sid user_id : String) (max_turns : Int) : String :=
  match get_session store sid user_id with
  | none => ""
  | some s =>
      let recent := takeLast (2 * max_turns).toNat s.conversation_history
      if recent.isEmpty then ""
      else
        String.intercalate "\n"
          ("PREVIOUS CONVERSATION:" :: recent.map (fun m => pyUpper m.role ++ ": " ++ m.content) ++ [""])

/-! Concrete fixtures for witnesses and counterexamples. -/

/-- A dim-2 index holding one vector, with its mapping. -/
def stC1 : FaissState := ⟨some ⟨2, [(5, [1, 0])]⟩, [⟨5, "old", "d1", none⟩], []⟩

/-- The empty initial service state (`index = None`, empty collections). -/
def stEmptyF : FaissState := ⟨none, [], []⟩

/-- A dim-2 index with one owner-tagged entry, for the owner-filter
counterexample. -/
def stC7x : FaissState := ⟨some ⟨2, [(1, [1, 0])]⟩, [⟨1, "c1", "d1", some "alice"⟩], []⟩

/-- Two documents with one chunk each, for the delete witness. -/
def stC6w : FaissState :=
  ⟨some ⟨2, [(1, [1, 0]), (2, [0, 1])]⟩,
    [⟨1, "c1", "d1", none⟩, ⟨2, "c2", "d2", none⟩],
    [⟨"c1", "t1"⟩, ⟨"c2", "t2"⟩]⟩

/-- A session store holding one session of owner `u1` with one full
user/assistant exchange. -/
def stS : SessionStore :=
  [⟨"s1", "u1", [⟨"user", "q1", none⟩, ⟨"assistant", "a1", none⟩], 1, []⟩]

/-- Collaborators whose embedding call fails; everything downstream
would succeed. -/
def cFail : Collabs :=
  ⟨fun _ => .error "boom", fun _ _ _ => .ok [], fun _ _ _ => .ok [],
    fun _ l => .ok l, fun _ _ _ => .ok "ans"⟩

/-- A query continuing session `s1` as owner `u1`. -/
def reqC3 : QueryRequest := ⟨"u1", "q2", some "s1"⟩

/-- The session store of `stS` after the user Turn of `reqC3` has been
appended. -/
def stC3after : SessionStore :=
  [⟨"s1", "u1", [⟨"user", "q1", none⟩, ⟨"assistant", "a1", none⟩, ⟨"user", "q2", none⟩], 2, []⟩]

/-- A dim-2 index holding one vector, for the search-mismatch claims. -/
def stC5f : FaissState := ⟨some ⟨2, [(1, [1, 0])]⟩, [⟨1, "c", "d", none⟩], []⟩

/-- Dense hit set of the merge witness: chunk `a` scoring 9. -/
def denseC4 : List Hit := [⟨"a", "d1", "t", some 9⟩]

/-- Sparse hit set of the merge witness: chunk `a` scoring 4. -/
def sparseC4 : List Hit := [⟨"a", "d2", "t2", some 4⟩]

/-- Dense hit set of the tie witness: chunk `a` scoring 7. -/
def denseC10 : List Hit := [⟨"a", "dD", "tD", some 7⟩]

/-- Sparse hit set of the tie witness: chunk `a` also scoring 7. -/
def sparseC10 : List Hit := [⟨"a", "dS", "tS", some 7⟩]

/-- The delete witness state after removing document `d1`. -/
def stC6after : FaissState :=
  ⟨some ⟨2, [(2, [0, 1])]⟩, [⟨2, "c2", "d2", none⟩], [⟨"c1", "t1"⟩, ⟨"c2", "t2"⟩]⟩

/-- Two chunks owned by different users, for the owner-filter witness. -/
def stC7w : FaissState :=
  ⟨some ⟨2, [(1, [1, 0]), (2, [0, 1])]⟩,
    [⟨1, "c1", "d1", some "alice"⟩, ⟨2, "c2", "d2", some "bob"⟩], []⟩

/-! Theorems. -/

/-- C1 (code_bug): the claim says an upsert whose embedding length
differs from the active dimensionality of a non-empty index fails with
DimensionMismatch and preserves the stored vectors.  The code instead
passes `allow_reset=True` to `ensure_index_dim`, so the upsert succeeds
(`inserted = 1`) and the index is silently reinitialized to the new
dimensionality: on a dim-2 index holding one vector, upserting a 3-dim
embedding discards that vector, whatever the library primitives do. -/
theorem C1_upsert_dim_mismatch_silently_resets (lib : FaissLib) :
    (upsert lib stC1 "d2" none [("c1", [1, 1, 1])]).2 = .ok 1 ∧
    (upsert lib stC1 "d2" none [("c1", [1, 1, 1])]).1.index
      = some ⟨3, [(lib.chunkKey "c1", lib.normalize [1, 1, 1])]⟩ := by
  constructor <;>
    simp [stC1, upsert, upsertGo, ensure_index_dim, reset_index]

/-- C2 (code_bug): the claim says upserting the same chunk_id twice
leaves exactly one index entry and one mapping entry for its int_key.
The mapping side holds (`replace_one` keyed on `_id`), but the index
side fails: `add_with_ids` appends without checking for an existing id,
so after two upserts of chunk `c1` the index holds two entries with the
same int_key. -/
theorem C2_upsert_same_chunk_duplicates_index_entry (lib : FaissLib) :
    ((upsert lib ((upsert lib stEmptyF "d1" (some "u1") [("c1", [1, 0])]).1)
        "d1" (some "u1") [("c1", [0, 1])]).1).index
      = some ⟨2, [(lib.chunkKey "c1", lib.normalize [1, 0]),
                  (lib.chunkKey "c1", lib.normalize [0, 1])]⟩ ∧
    ((upsert lib ((upsert lib stEmptyF "d1" (some "u1") [("c1", [1, 0])]).1)
        "d1" (some "u1") [("c1", [0, 1])]).1).mappings
      = [⟨lib.chunkKey "c1", "c1", "d1", some "u1"⟩] := by
  constructor <;>
    simp [stEmptyF, upsert, upsertGo, ensure_index_dim, reset_index, replaceOneMapping]

/-- Helper: once the session is resolved, a failing collaborator makes
`queryBody` return its error together with the store it was given —
the assistant Turn is only appended on the all-success path. -/
theorem queryBody_error_state (c : Collabs) (store : SessionStore) (sid : String)
    (req : QueryRequest) (st' : SessionStore) (e : HTTPError)
    (h : queryBody c store sid req = (st', .error e)) : st' = store := by
  unfold queryBody at h
  simp only [] at h
  repeat' split at h
  all_goals first
    | (injection h with h1 h2; exact h1.symm)
    | (injection h with h1 h2; exact absurd h2 (by simp))

/-- C3 (corrected): a collaborator failure aborts the request with a
surfaced error and no partial answer, but the user Turn of a continuing
session is appended when the session is resolved, before any
collaborator runs; only the assistant Turn waits for generation.  So
whenever `query` on a valid continuing session returns an error, the
resulting store is exactly the prior store with the user Turn appended
(not the unchanged store the claim asserts). -/
theorem C3_failure_leaves_user_turn_appended (c : Collabs) (genSid : String)
    (store : SessionStore) (req : QueryRequest) (sid : String) (s : Session)
    (st' : SessionStore) (e : HTTPError)
    (h1 : req.session_id = some sid) (h2 : sid.isEmpty = false)
    (h3 : get_session store sid req.user_id = some s)
    (h4 : query c genSid store req = (st', .error e)) :
    st' = (add_message store sid req.user_id "user" req.query_text none none).1 := by
  unfold query at h4
  rw [h1] at h4
  simp only [h2, Bool.false_eq_true, if_false] at h4
  rw [h3] at h4
  exact queryBody_error_state _ _ _ _ _ _ h4

/-- C3 witness: a failing embedding call on session `s1` leaves the
store equal to the old store with only the user Turn appended. -/
theorem C3_failure_leaves_user_turn_appended_witness :
    stC3after = (add_message stS "s1" "u1" "user" "q2" none none).1 :=
  C3_failure_leaves_user_turn_appended cFail "g" stS reqC3 "s1"
    ⟨"s1", "u1", [⟨"user", "q1", none⟩, ⟨"assistant", "a1", none⟩], 1, []⟩
    stC3after ⟨500, "boom"⟩ rfl rfl rfl rfl

/-- C3 counterexample: with a failing embedding collaborator, the query
on continuing session `s1` aborts with the surfaced error, yet the
session's conversation_history has changed (it gained the user Turn),
contradicting the claim that a collaborator failure leaves it
unchanged. -/
theorem C3_counterexample_history_changed :
    (query cFail "g" stS reqC3).2 = .error ⟨500, "boom"⟩ ∧
    (query cFail "g" stS reqC3).1.map Session.conversation_history
      ≠ stS.map Session.conversation_history := by
  refine ⟨rfl, ?_⟩
  decide

/-- C5 (corrected): a search whose query embedding has a positive
length different from the dimensionality of a non-empty index fails
with the dimensionality-mismatch error naming both dimensions and
instructing an explicit rebuild, and the state (hence the index) is
returned unchanged. -/
theorem C5_search_dim_mismatch_rejected (lib : FaissLib) (st : FaissState)
    (ix : FaissIndex) (emb : Vec) (k : Nat) (uid : Option String)
    (h1 : st.index = some ix) (h2 : ix.entries ≠ []) (h3 : emb.length ≠ ix.d)
    (h4 : emb.length ≠ 0) :
    search lib st emb k uid = (st, .error (dimMismatchErr ix.d emb.length)) := by
  unfold search ensure_index_dim
  rw [h1]
  simp only [if_neg h4]
  rw [if_neg (fun hc => h3 hc.symm), if_neg (by simp [List.isEmpty_eq_false.mpr h2])]

/-- C5 witness: a 3-dim query against the non-empty dim-2 index is
rejected with the error naming 2 and 3, leaving the state unchanged. -/
theorem C5_search_dim_mismatch_rejected_witness :
    search testLib stC5f [1, 2, 3] 10 none = (stC5f, .error (dimMismatchErr 2 3)) :=
  C5_search_dim_mismatch_rejected testLib stC5f ⟨2, [(1, [1, 0])]⟩ [1, 2, 3] 10 none
    rfl (by decide) (by decide) (by decide)

/-- C5 counterexample: a zero-length query embedding also differs from
the active dimensionality of the non-empty index, but the failure is
the 400 InvalidInput error, which names neither dimension and does not
instruct a rebuild — not the dimensionality-mismatch error the claim
promises for every differing length. -/
theorem C5_counterexample_zero_length_embedding :
    search testLib stC5f [] 10 none = (stC5f, .error posDimErr) ∧
    posDimErr ≠ dimMismatchErr 2 0 := by
  refine ⟨rfl, ?_⟩
  decide

/-- C8 (confirmed): creating a session with a fresh session id appends
one document carrying that id and owner, and `get_session` on that id
returns the document exactly for the creating owner — any other
owner_id gets not-found. -/
theorem C8_session_owner_isolation (store : SessionStore) (sid uid : String)
    (q : Option String) (hfresh : ∀ s ∈ store, s.session_id ≠ sid) :
    ∃ newS : Session, create_session store sid uid q = store ++ [newS] ∧
      newS.session_id = sid ∧ newS.user_id = uid ∧
      ∀ u : String, get_session (create_session store sid uid q) sid u
        = if u = uid then some newS else none := by
  have hsid : (newSessionDoc sid uid q).session_id = sid := by
    unfold newSessionDoc
    rcases q with _ | q
    · rfl
    · dsimp only
      split <;> rfl
  have huid : (newSessionDoc sid uid q).user_id = uid := by
    unfold newSessionDoc
    rcases q with _ | q
    · rfl
    · dsimp only
      split <;> rfl
  refine ⟨newSessionDoc sid uid q, rfl, hsid, huid, ?_⟩
  intro u
  unfold get_session create_session
  rw [List.find?_append]
  have h0 : store.find? (fun s => s.session_id == sid && s.user_id == u) = none := by
    rw [List.find?_eq_none]
    intro s hs
    simp only [Bool.and_eq_true, beq_iff_eq, not_and]
    intro hc; exact absurd hc (hfresh s hs)
  rw [h0, Option.none_or]
  by_cases hu : u = uid
  · subst hu; simp [List.find?_cons, hsid, huid]
  · have hne : (uid == u) = false := by
      simp only [beq_eq_false_iff_ne, ne_eq]
      exact fun h => hu h.symm
    simp [List.find?_cons, hsid, huid, hne, hu]

/-- C8 witness: owner `u1` creates a session in an empty store; `u1`
retrieves it and `u2` gets not-found. -/
theorem C8_session_owner_isolation_witness :
    ∃ newS : Session, create_session [] "s1" "u1" (some "hi") = [] ++ [newS] ∧
      newS.session_id = "s1" ∧ newS.user_id = "u1" ∧
      ∀ u : String, get_session (create_session [] "s1" "u1" (some "hi")) "s1" u
        = if u = "u1" then some newS else none :=
  C8_session_owner_isolation [] "s1" "u1" (some "hi") (by simp)

/-- C9 (corrected): for every positive `max_turns`, the code's
`build_context_prompt` coincides with the claim's description — empty
string when no history exists, otherwise the fixed header followed by
the at most `2 * max_turns` most recent raw entries as upper-cased
`ROLE: content` lines. -/
theorem C9_build_context_matches_spec (store : SessionStore) (sid uid : String)
    (mt : Int) (h : 1 ≤ mt) :
    build_context_prompt store sid uid mt = contextSpec store sid uid mt := by
  unfold build_context_prompt contextSpec get_conversation_history
  cases hg : get_session store sid uid with
  | none => simp
  | some s =>
      dsimp only
      have hpos : (0 : Int) < mt * 2 := by omega
      rw [if_pos hpos, Int.mul_comm mt 2]

/-- C9 witness: with `max_turns = 5` (the orchestrator's value) the
rendered context for session `s1` matches the claim's description. -/
theorem C9_build_context_matches_spec_witness :
    build_context_prompt stS "s1" "u1" 5 = contextSpec stS "s1" "u1" 5 :=
  C9_build_context_matches_spec stS "s1" "u1" 5 (by decide)

/-- C9 counterexample: with `max_turns = 0` the Python guard
`if limit and limit > 0` is falsy, so the whole 2-entry history is
rendered — more than the `2 * 0 = 0` raw entries the claim allows —
while the claim's description yields the empty cut. -/
theorem C9_counterexample_zero_max_turns :
    build_context_prompt stS "s1" "u1" 0
        = "PREVIOUS CONVERSATION:\nUSER: q1\nASSISTANT: a1\n" ∧
    contextSpec stS "s1" "u1" 0 = "" := by
  constructor <;> rfl

/-! Association-list (Python dict) lemmas for the merge step. -/

theorem assocFind_cons (p : String × Hit) (m : List (String × Hit)) (k : String) :
    assocFind (p :: m) k = if (p.1 == k) = true then some p.2 else assocFind m k := by
  unfold assocFind
  rw [List.find?_cons]
  cases h : (p.1 == k) <;> simp [h]

theorem assocSet_cons_ne (a : String × Hit) (as : List (String × Hit)) (k : String)
    (v : Hit) (ha : (a.1 == k) = false) :
    assocSet (a :: as) k v = a :: assocSet as k v := by
  unfold assocSet
  rw [List.any_cons, ha, Bool.false_or]
  cases has : as.any (fun p => p.1 == k)
  · simp [List.cons_append]
  · rw [if_pos rfl, List.map_cons, if_neg (by simp [ha] : ¬((a.1 == k) = true)), if_pos rfl]

theorem assocSet_cons_eq (a : String × Hit) (as : List (String × Hit)) (k : String)
    (v : Hit) (ha : (a.1 == k) = true) :
    assocSet (a :: as) k v
      = (k, v) :: as.map (fun p => if (p.1 == k) = true then (k, v) else p) := by
  unfold assocSet
  rw [List.any_cons, ha, Bool.true_or, if_pos rfl, List.map_cons, if_pos ha]

theorem assocFind_map_replace (m : List (String × Hit)) (k k' : String) (v : Hit)
    (hne : k' ≠ k) :
    assocFind (m.map (fun p => if (p.1 == k) = true then (k, v) else p)) k'
      = assocFind m k' := by
  induction m with
  | nil => rfl
  | cons a as ih =>
      rw [List.map_cons, assocFind_cons, assocFind_cons]
      by_cases ha : (a.1 == k) = true
      · have h1 : ((k, v).1 == k') = false := by
          simp only [beq_eq_false_iff_ne, ne_eq]
          exact fun h => hne h.symm
        have h2 : (a.1 == k') = false := by
          rw [beq_iff_eq] at ha
          simp only [beq_eq_false_iff_ne, ne_eq, ha]
          exact fun h => hne h.symm
        simp only [if_pos ha, h1, h2, Bool.false_eq_true, if_false, ih]
      · simp only [if_neg ha, ih]

theorem assocFind_assocSet_self (m : List (String × Hit)) (k : String) (v : Hit) :
    assocFind (assocSet m k v) k = some v := by
  induction m with
  | nil => simp [assocSet, assocFind_cons]
  | cons a as ih =>
      by_cases ha : (a.1 == k) = true
      · rw [assocSet_cons_eq a as k v ha, assocFind_cons]
        simp
      · rw [Bool.not_eq_true] at ha
        rw [assocSet_cons_ne a as k v ha, assocFind_cons]
        simp only [ha, Bool.false_eq_true, if_false]
        exact ih

theorem assocFind_assocSet_ne (m : List (String × Hit)) (k k' : String) (v : Hit)
    (hne : k' ≠ k) : assocFind (assocSet m k v) k' = assocFind m k' := by
  induction m with
  | nil =>
      simp only [assocSet, List.any_nil, Bool.false_eq_true, if_false, List.nil_append]
      rw [assocFind_cons]
      have h1 : ((k, v).1 == k') = false := by
        simp only [beq_eq_false_iff_ne, ne_eq]
        exact fun h => hne h.symm
      simp [h1]
  | cons a as ih =>
      by_cases ha : (a.1 == k) = true
      · rw [assocSet_cons_eq a as k v ha, assocFind_cons, assocFind_cons]
        have h1 : ((k, v).1 == k') = false := by
          simp only [beq_eq_false_iff_ne, ne_eq]
          exact fun h => hne h.symm
        have h2 : (a.1 == k') = false := by
          rw [beq_iff_eq] at ha
          simp only [beq_eq_false_iff_ne, ne_eq, ha]
          exact fun h => hne h.symm
        simp only [h1, h2, Bool.false_eq_true, if_false]
        exact assocFind_map_replace as k k' v hne
      · rw [Bool.not_eq_true] at ha
        rw [assocSet_cons_ne a as k v ha, assocFind_cons, assocFind_cons]
        cases hak : (a.1 == k') <;> simp [hak, ih]

theorem any_eq_false_of_assocFind_none (m : List (String × Hit)) (k : String)
    (h : assocFind m k = none) : m.any (fun p => p.1 == k) = false := by
  induction m with
  | nil => rfl
  | cons a as ih =>
      rw [assocFind_cons] at h
      by_cases ha : (a.1 == k) = true
      · rw [if_pos ha] at h; cases h
      · rw [Bool.not_eq_true] at ha
        rw [if_neg (by simp [ha])] at h
        rw [List.any_cons, ha, Bool.false_or]
        exact ih h

theorem keys_assocSet_absent (m : List (String × Hit)) (k : String) (v : Hit)
    (hany : m.any (fun p => p.1 == k) = false) :
    (assocSet m k v).map Prod.fst = m.map Prod.fst ++ [k] := by
  unfold assocSet
  rw [hany]
  simp

theorem keys_assocSet_present (m : List (String × Hit)) (k : String) (v : Hit)
    (hany : m.any (fun p => p.1 == k) = true) :
    (assocSet m k v).map Prod.fst = m.map Prod.fst := by
  unfold assocSet
  rw [hany, if_pos rfl, List.map_map]
  apply List.map_congr_left
  intro p _
  by_cases hpk : (p.1 == k) = true
  · simp only [Function.comp_apply, if_pos hpk]
    exact (beq_iff_eq.mp hpk).symm
  · simp only [Function.comp_apply, if_neg hpk]

theorem not_mem_keys_of_any_false (m : List (String × Hit)) (k : String)
    (hany : m.any (fun p => p.1 == k) = false) : k ∉ m.map Prod.fst := by
  intro hmem
  rw [List.mem_map] at hmem
  obtain ⟨p, hp, hpk⟩ := hmem
  have : m.any (fun q => q.1 == k) = true :=
    List.any_eq_true.mpr ⟨p, hp, beq_iff_eq.mpr hpk⟩
  rw [hany] at this
  cases this

/-! Merge fold lemmas. -/

theorem mem_assocSet {p : String × Hit} (m : List (String × Hit)) (k : String) (v : Hit)
    (hp : p ∈ assocSet m k v) : p ∈ m ∨ p = (k, v) := by
  unfold assocSet at hp
  split at hp
  · rw [List.mem_map] at hp
    obtain ⟨q, hq, hqe⟩ := hp
    by_cases hk : (q.1 == k) = true
    · right; rw [if_pos hk] at hqe; exact hqe.symm
    · left; rw [if_neg hk] at hqe; exact hqe ▸ hq
  · rw [List.mem_append, List.mem_singleton] at hp
    exact hp

theorem assocFind_mem (m : List (String × Hit)) (k : String) (v : Hit)
    (h : assocFind m k = some v) : ∃ p ∈ m, p.2 = v := by
  unfold assocFind at h
  rw [Option.map_eq_some'] at h
  obtain ⟨p, hp, hpe⟩ := h
  exact ⟨p, List.mem_of_find?_eq_some hp, hpe⟩

theorem any_eq_true_of_assocFind_some (m : List (String × Hit)) (k : String) (v : Hit)
    (h : assocFind m k = some v) : m.any (fun p => p.1 == k) = true := by
  unfold assocFind at h
  rw [Option.map_eq_some'] at h
  obtain ⟨q, hq, _⟩ := h
  have hpq : (q.1 == k) = true := by
    have := List.find?_some hq
    simpa using this
  exact List.any_eq_true.mpr ⟨q, List.mem_of_find?_eq_some hq, hpq⟩

theorem assocFind_mergeStepB (m : List (String × Hit)) (h : Hit) (cid : String) :
    assocFind (mergeStepB m h) cid
      = if h.chunk_id = cid then step1 (assocFind m cid) h else assocFind m cid := by
  unfold mergeStepB step1
  by_cases hc : h.chunk_id = cid
  · subst hc
    cases hf : assocFind m h.chunk_id with
    | none => simp [assocFind_assocSet_self, hf]
    | some old =>
        simp only [hf, if_pos rfl]
        split
        · rw [assocFind_assocSet_self]
          simp
        · rw [hf]
          simp
  · cases hf : assocFind m h.chunk_id with
    | none => simp [assocFind_assocSet_ne m h.chunk_id cid _ (fun he => hc he.symm), hc]
    | some old =>
        simp only [hf, if_neg hc]
        split
        · rw [assocFind_assocSet_ne m h.chunk_id cid _ (fun he => hc he.symm)]
        · rfl

theorem assocFind_foldl_mergeStepB (hs : List Hit) (m : List (String × Hit)) (cid : String) :
    assocFind (hs.foldl mergeStepB m) cid
      = (hs.filter (fun h => h.chunk_id == cid)).foldl step1 (assocFind m cid) := by
  induction hs generalizing m with
  | nil => rfl
  | cons h t ih =>
      rw [List.foldl_cons, List.filter_cons, ih]
      by_cases hc : h.chunk_id = cid
      · rw [if_pos (beq_iff_eq.mpr hc), List.foldl_cons, assocFind_mergeStepB, if_pos hc]
      · rw [if_neg (by simp [hc]), assocFind_mergeStepB, if_neg hc]

theorem mergeStep_eq_ok (m : List (String × Hit)) (h : Hit)
    (hh : h.score.isSome = true) (hm : ∀ p ∈ m, (p.2 : Hit).score.isSome = true) :
    mergeStep m h = .ok (mergeStepB m h) := by
  unfold mergeStep mergeStepB
  cases hf : assocFind m h.chunk_id with
  | none => rfl
  | some old =>
      have hold : old.score.isSome = true := by
        obtain ⟨p, hp, hpe⟩ := assocFind_mem m h.chunk_id old hf
        exact hpe ▸ hm p hp
      obtain ⟨x, hx⟩ := Option.isSome_iff_exists.mp hh
      obtain ⟨y, hy⟩ := Option.isSome_iff_exists.mp hold
      dsimp only
      rw [hx, hy]
      show Except.bind (pyGtOpt (some x) (some y)) _ = _
      unfold pyGtOpt
      simp only [Except.bind]
      unfold getScore
      rw [hx, hy]
      simp only [Option.getD_some]
      by_cases hlt : y < x
      · rw [if_pos (by simpa using hlt), if_pos hlt]
        rfl
      · rw [if_neg (by simpa using hlt), if_neg hlt]
        rfl

theorem values_mergeStepB (m : List (String × Hit)) (h : Hit)
    (hh : h.score.isSome = true) (hm : ∀ p ∈ m, (p.2 : Hit).score.isSome = true) :
    ∀ p ∈ mergeStepB m h, (p.2 : Hit).score.isSome = true := by
  intro p hp
  unfold mergeStepB at hp
  have hset : ∀ k, p ∈ assocSet m k h → (p.2 : Hit).score.isSome = true := by
    intro k hpk
    rcases mem_assocSet m k h hpk with hin | heq
    · exact hm p hin
    · rw [heq]; exact hh
  split at hp
  · exact hset _ hp
  · split at hp
    · exact hset _ hp
    · exact hm p hp

theorem foldlM_mergeStep_eq_ok (hs : List Hit) (m : List (String × Hit))
    (hall : ∀ h ∈ hs, h.score.isSome = true)
    (hm : ∀ p ∈ m, (p.2 : Hit).score.isSome = true) :
    hs.foldlM mergeStep m = .ok (hs.foldl mergeStepB m) := by
  induction hs generalizing m with
  | nil => rfl
  | cons h t ih =>
      rw [List.foldlM_cons, List.foldl_cons]
      have hh : h.score.isSome = true := hall h (List.mem_cons_self h t)
      rw [mergeStep_eq_ok m h hh hm]
      show (t.foldlM mergeStep (mergeStepB m h)) = _
      exact ih (mergeStepB m h) (fun x hx => hall x (List.mem_cons_of_mem h hx))
        (values_mergeStepB m h hh hm)

theorem keys_foldl_mergeStepB (hs : List Hit) (m : List (String × Hit))
    (hnd : (m.map Prod.fst).Nodup) :
    ((hs.foldl mergeStepB m).map Prod.fst).Nodup := by
  induction hs generalizing m with
  | nil => exact hnd
  | cons h t ih =>
      rw [List.foldl_cons]
      apply ih
      unfold mergeStepB
      cases hf : assocFind m h.chunk_id with
      | none =>
          have hany := any_eq_false_of_assocFind_none m h.chunk_id hf
          rw [keys_assocSet_absent m h.chunk_id h hany]
          have hnot := not_mem_keys_of_any_false m h.chunk_id hany
          simp [List.nodup_append, hnd, hnot]
      | some old =>
          have hany := any_eq_true_of_assocFind_some m h.chunk_id old hf
          dsimp only
          by_cases hlt : getScore old < getScore h
          · rw [if_pos hlt, keys_assocSet_present m h.chunk_id h hany]
            exact hnd
          · rw [if_neg hlt]
            exact hnd

theorem allLe_cons (a : Hit) (l : List Hit) (x : Hit) :
    allLe (a :: l) x = (decide (getScore a ≤ getScore x) && allLe l x) := by
  unfold allLe
  rw [List.all_cons]

theorem find?_congr_mem {α : Type} (l : List α) (p q : α → Bool)
    (h : ∀ x ∈ l, p x = q x) : l.find? p = l.find? q := by
  induction l with
  | nil => rfl
  | cons a as ih =>
      rw [List.find?_cons, List.find?_cons, h a (List.mem_cons_self a as)]
      cases hq : q a
      · exact ih (fun x hx => h x (List.mem_cons_of_mem a hx))
      · rfl

theorem firstBest_exchange (b h : Hit) (t : List Hit) :
    firstBest (b :: h :: t)
      = firstBest ((if getScore b < getScore h then h else b) :: t) := by
  by_cases hlt : getScore b < getScore h
  · rw [if_pos hlt]
    unfold firstBest
    have hb : allLe (b :: h :: t) b = false := by
      rw [allLe_cons, allLe_cons]
      have : decide (getScore h ≤ getScore b) = false := by
        simp [not_le.mpr hlt]
      rw [this, Bool.false_and, Bool.and_false]
    rw [List.find?_cons, hb]
    apply find?_congr_mem
    intro x _
    rw [allLe_cons]
    cases hc : allLe (h :: t) x
    · rw [Bool.and_false]
    · have hhx : getScore h ≤ getScore x := by
        have := List.all_eq_true.mp hc h (List.mem_cons_self h t)
        simpa using this
      have : decide (getScore b ≤ getScore x) = true := by
        simp [le_of_lt (lt_of_lt_of_le hlt hhx)]
      rw [this, Bool.true_and]
  · rw [if_neg hlt]
    have hle : getScore h ≤ getScore b := not_lt.mp hlt
    unfold firstBest
    have hhead : allLe (b :: h :: t) b = allLe (b :: t) b := by
      rw [allLe_cons, allLe_cons, allLe_cons]
      rw [decide_eq_true hle, Bool.true_and]
    conv_lhs => rw [List.find?_cons]
    conv_rhs => rw [List.find?_cons]
    rw [hhead]
    cases hcond : allLe (b :: t) b
    · have hth : allLe t b = false := by
        rw [allLe_cons] at hcond
        simpa using hcond
      have hh2 : allLe (b :: h :: t) h = false := by
        rw [allLe_cons, allLe_cons]
        by_cases hbh : getScore b ≤ getScore h
        · have heq : getScore h = getScore b := le_antisymm hle hbh
          have hth' : allLe t h = false := by
            unfold allLe at hth ⊢
            simp only [heq]
            exact hth
          rw [hth', Bool.and_false, Bool.and_false]
        · have : decide (getScore b ≤ getScore h) = false := by simp [hbh]
          rw [this, Bool.false_and]
      dsimp only
      rw [List.find?_cons, hh2]
      dsimp only
      apply find?_congr_mem
      intro x _
      rw [allLe_cons, allLe_cons, allLe_cons]
      cases hbx : decide (getScore b ≤ getScore x)
      · rw [Bool.false_and, Bool.false_and]
      · have hbx' : getScore b ≤ getScore x := of_decide_eq_true hbx
        have : decide (getScore h ≤ getScore x) = true := decide_eq_true (hle.trans hbx')
        rw [this, Bool.true_and]
    · rfl

theorem foldl_step1_some (t : List Hit) (b : Hit) :
    t.foldl step1 (some b) = firstBest (b :: t) := by
  induction t generalizing b with
  | nil =>
      unfold firstBest
      rw [List.find?_cons]
      have hb : allLe [b] b = true := by simp [allLe]
      rw [hb]
      rfl
  | cons h t ih =>
      rw [List.foldl_cons]
      have hstep : step1 (some b) h = some (if getScore b < getScore h then h else b) := by
        unfold step1
        by_cases hlt : getScore b < getScore h <;> simp [hlt]
      rw [hstep, ih, ← firstBest_exchange]

theorem foldl_step1_none (l : List Hit) :
    l.foldl step1 none = firstBest l := by
  cases l with
  | nil => rfl
  | cons h t =>
      rw [List.foldl_cons]
      show t.foldl step1 (some h) = _
      rw [foldl_step1_some]

/-- C4 (confirmed): when every score is numeric (both result sets
always carry the key; dense scores are floats, sparse fallback `None`
scores would instead raise a TypeError in the comparison), the merge
produces one candidate per chunk_id — the map's keys are duplicate-free
— and for every chunk_id the kept candidate is exactly the first
occurrence across dense followed by sparse whose score is maximal
(higher raw score wins; ties keep the first seen). -/
theorem C4_merge_keeps_first_best (dense sparse : List Hit)
    (hall : ∀ h ∈ dense ++ sparse, h.score.isSome = true) :
    ∃ m, mergeHits dense sparse = .ok m ∧ (m.map Prod.fst).Nodup ∧
      ∀ cid : String, assocFind m cid
        = firstBest ((dense ++ sparse).filter (fun h => h.chunk_id == cid)) := by
  refine ⟨(dense ++ sparse).foldl mergeStepB [], ?_, ?_, ?_⟩
  · unfold mergeHits
    exact foldlM_mergeStep_eq_ok _ _ hall (by intro p hp; cases hp)
  · exact keys_foldl_mergeStepB _ _ List.nodup_nil
  · intro cid
    rw [assocFind_foldl_mergeStepB]
    have h0 : assocFind ([] : List (String × Hit)) cid = none := rfl
    rw [h0, foldl_step1_none]

/-- C4 witness: dense hit (a, 9) and sparse hit (a, 4) merge to one
candidate for `a`, the dense occurrence with the higher score. -/
theorem C4_merge_keeps_first_best_witness :
    (∀ h ∈ denseC4 ++ sparseC4, h.score.isSome = true) ∧
    ∃ m, mergeHits denseC4 sparseC4 = .ok m ∧ (m.map Prod.fst).Nodup ∧
      ∀ cid : String, assocFind m cid
        = firstBest ((denseC4 ++ sparseC4).filter (fun h => h.chunk_id == cid)) :=
  ⟨by decide, C4_merge_keeps_first_best denseC4 sparseC4 (by decide)⟩

/-- C10 (confirmed): dense hits are folded before sparse hits, so when
a chunk_id occurs once in each set and the sparse score does not
strictly exceed the dense score (equality included), the merged
candidate is the dense occurrence. -/
theorem C10_tie_keeps_dense_occurrence (dense sparse : List Hit) (cid : String)
    (hd hs : Hit)
    (hall : ∀ h ∈ dense ++ sparse, h.score.isSome = true)
    (hdf : dense.filter (fun h => h.chunk_id == cid) = [hd])
    (hsf : sparse.filter (fun h => h.chunk_id == cid) = [hs])
    (hle : getScore hs ≤ getScore hd) :
    ∃ m, mergeHits dense sparse = .ok m ∧ assocFind m cid = some hd := by
  refine ⟨(dense ++ sparse).foldl mergeStepB [], ?_, ?_⟩
  · unfold mergeHits
    exact foldlM_mergeStep_eq_ok _ _ hall (by intro p hp; cases hp)
  · rw [assocFind_foldl_mergeStepB]
    have h0 : assocFind ([] : List (String × Hit)) cid = none := rfl
    rw [h0, List.filter_append, hdf, hsf]
    show step1 (step1 none hd) hs = some hd
    unfold step1
    dsimp only
    rw [if_neg (not_lt.mpr hle)]

/-- C10 witness: equal scores 7 for chunk `a` in both sets keep the
dense occurrence. -/
theorem C10_tie_keeps_dense_occurrence_witness :
    ∃ m, mergeHits denseC10 sparseC10 = .ok m ∧
      assocFind m "a" = some ⟨"a", "dD", "tD", some 7⟩ :=
  C10_tie_keeps_dense_occurrence denseC10 sparseC10 "a"
    ⟨"a", "dD", "tD", some 7⟩ ⟨"a", "dS", "tS", some 7⟩
    (by decide) (by decide) (by decide) (by decide)

/-- A successful dimensionality reconciliation never touches the Mongo
collections: only the index field can change. -/
theorem ensure_preserves_collections {st st' : FaissState} {t : Nat} {b : Bool}
    (h : ensure_index_dim st t b = .ok st') :
    st'.mappings = st.mappings ∧ st'.chunks = st.chunks := by
  unfold ensure_index_dim at h
  split at h
  · exact absurd h (by simp)
  · split at h
    · simp only [Except.ok.injEq] at h
      subst h; exact ⟨rfl, rfl⟩
    · split at h
      · simp only [Except.ok.injEq] at h; subst h; exact ⟨rfl, rfl⟩
      · split at h
        · simp only [Except.ok.injEq] at h; subst h; exact ⟨rfl, rfl⟩
        · exact absurd h (by simp)

/-- Every result built by the collection loop of `search` comes from a
mapping document of the current state: the result copies that mapping's
chunk_id and doc_id, and when a truthy owner filter is set the mapping's
owner equals it. -/
theorem searchCollect_sound (st : FaissState) (uid : Option String)
    (rows : List (ℚ × Int)) (r : SearchResult) (hr : r ∈ searchCollect st uid rows) :
    ∃ m ∈ st.mappings, r.chunk_id = m.chunk_id ∧ r.doc_id = m.doc_id ∧
      (optStrTruthy uid = true → m.user_id = uid) := by
  induction rows with
  | nil => cases hr
  | cons row rest ih =>
      unfold searchCollect at hr
      by_cases h1 : (row.2 == -1) = true
      · rw [if_pos h1] at hr
        exact ih hr
      · rw [if_neg h1] at hr
        cases hf : st.mappings.find? (fun m => m.key == row.2) with
        | none =>
            rw [hf] at hr
            exact ih hr
        | some m =>
            rw [hf] at hr
            dsimp only at hr
            by_cases h2 : (optStrTruthy uid && (m.user_id != uid)) = true
            · rw [if_pos h2] at hr
              exact ih hr
            · rw [if_neg h2] at hr
              rcases List.mem_cons.mp hr with he | hrest
              · refine ⟨m, List.mem_of_find?_eq_some hf, ?_, ?_, ?_⟩
                · rw [he]
                · rw [he]
                · intro ht
                  rw [Bool.and_eq_true, not_and] at h2
                  have := h2 ht
                  rw [Bool.not_eq_true, bne_eq_false_iff_eq] at this
                  exact this
              · exact ih hrest

/-- `search` only reports chunk/doc pairs of mappings of the state it
was called on (ensure_index_dim never touches the collections), with
the owner filter honoured when truthy. -/
theorem search_results_sound (lib : FaissLib) (st : FaissState) (emb : Vec)
    (k : Nat) (uid : Option String) (st' : FaissState) (res : List SearchResult)
    (hs : search lib st emb k uid = (st', .ok res)) :
    ∀ r ∈ res, ∃ m ∈ st.mappings, r.chunk_id = m.chunk_id ∧ r.doc_id = m.doc_id ∧
      (optStrTruthy uid = true → m.user_id = uid) := by
  intro r hr
  unfold search at hs
  cases he : ensure_index_dim st emb.length false with
  | error e =>
      rw [he] at hs
      cases hs
  | ok st1 =>
      rw [he] at hs
      dsimp only at hs
      have hcoll : st1.mappings = st.mappings := (ensure_preserves_collections he).1
      cases hix : st1.index with
      | none =>
          rw [hix] at hs
          cases hs
      | some ix =>
          rw [hix] at hs
          dsimp only at hs
          simp only [Prod.mk.injEq, Except.ok.injEq] at hs
          obtain ⟨hst, hres⟩ := hs
          rw [← hres] at hr
          obtain ⟨m, hm, h3⟩ := searchCollect_sound st1 uid _ r hr
          exact ⟨m, hcoll ▸ hm, h3⟩

/-- Characterization of `/delete`: the returned count is the number of
mapping documents for the doc_id, and the final mapping collection is
the old one with those documents removed. -/
theorem delete_spec (st : FaissState) (doc : String) :
    (delete st doc).2.1 = (st.mappings.filter (fun m => m.doc_id == doc)).length ∧
    (delete st doc).1.mappings = st.mappings.filter (fun m => m.doc_id != doc) := by
  unfold delete
  by_cases hemp : (st.mappings.filter (fun m => m.doc_id == doc)).isEmpty = true
  · rw [if_pos hemp]
    have hnil := List.isEmpty_iff.mp hemp
    constructor
    · show (0 : Nat) = _
      rw [hnil]
      rfl
    · show st.mappings = _
      symm
      rw [List.filter_eq_self]
      intro m hm
      rw [bne_iff_ne]
      intro hc
      have : m ∈ st.mappings.filter (fun x => x.doc_id == doc) :=
        List.mem_filter.mpr ⟨hm, beq_iff_eq.mpr hc⟩
      rw [hnil] at this
      cases this
  · rw [if_neg hemp]
    dsimp only
    constructor
    · rfl
    · cases hidx : st.index with
      | none => rfl
      | some ix =>
          dsimp only
          by_cases hlen : 0 < ix.entries.length
          · rw [if_pos hlen]
          · rw [if_neg hlen]

/-- C6 (confirmed): `delete(doc_id)` returns exactly the number of
mapping entries that existed for that doc_id (zero, with no error, when
none existed), and every result of any subsequent `search` on the
resulting state carries a doc_id different from the deleted one. -/
theorem C6_delete_removes_doc_from_search (lib : FaissLib) (st : FaissState)
    (doc : String) (st' : FaissState) (n : Nat) (msg : String)
    (hdel : delete st doc = (st', n, msg)) :
    n = (st.mappings.filter (fun m => m.doc_id == doc)).length ∧
    ∀ emb k uid st2 res, search lib st' emb k uid = (st2, .ok res) →
      ∀ r ∈ res, r.doc_id ≠ doc := by
  have h1 := (delete_spec st doc).1
  have h2 := (delete_spec st doc).2
  rw [hdel] at h1 h2
  refine ⟨h1, ?_⟩
  intro emb k uid st2 res hs r hr
  obtain ⟨m, hm, _, hd2, _⟩ := search_results_sound lib st' emb k uid st2 res hs r hr
  rw [h2, List.mem_filter] at hm
  intro hcontra
  rw [hd2] at hcontra
  exact (bne_iff_ne.mp hm.2) hcontra

/-- C6 witness: deleting `d1` from the two-document state reports count
1, and searches on the resulting state never return doc `d1`. -/
theorem C6_delete_removes_doc_from_search_witness :
    1 = (stC6w.mappings.filter (fun m => m.doc_id == "d1")).length ∧
    ∀ emb k uid st2 res, search testLib stC6after emb k uid = (st2, .ok res) →
      ∀ r ∈ res, r.doc_id ≠ "d1" :=
  C6_delete_removes_doc_from_search testLib stC6w "d1" stC6after 1 "Deleted 1 vectors" rfl

/-- C7 (corrected): for a non-empty owner filter U, every entry
returned by `search` resolves to a mapping whose owner equals U —
entries with a different owner are filtered out and entries with no
resolvable mapping are skipped. -/
theorem C7_owner_filter_sound (lib : FaissLib) (st : FaissState) (emb : Vec)
    (k : Nat) (u : String) (st1 : FaissState) (res : List SearchResult)
    (hu : u ≠ "")
    (hs : search lib st emb k (some u) = (st1, .ok res)) :
    ∀ r ∈ res, ∃ m ∈ st.mappings, r.chunk_id = m.chunk_id ∧ r.doc_id = m.doc_id ∧
      m.user_id = some u := by
  intro r hr
  obtain ⟨m, hm, hc, hd, himp⟩ := search_results_sound lib st emb k (some u) st1 res hs r hr
  have hne : u.isEmpty = false := by
    cases h2 : u.isEmpty
    · rfl
    · exact absurd ((String.isEmpty_iff u).mp h2) hu
  have ht : optStrTruthy (some u) = true := by
    show (!u.isEmpty) = true
    rw [hne]
    rfl
  exact ⟨m, hm, hc, hd, himp ht⟩

/-- C7 witness: searching with owner filter `alice` over a state owned
by `alice` and `bob` returns only `alice`-mapped entries. -/
theorem C7_owner_filter_sound_witness :
    ∃ m ∈ stC7w.mappings,
      (⟨"c1", "d1", "", 0⟩ : SearchResult).chunk_id = m.chunk_id ∧
      (⟨"c1", "d1", "", 0⟩ : SearchResult).doc_id = m.doc_id ∧
      m.user_id = some "alice" :=
  C7_owner_filter_sound testLib stC7w [1, 0] 10 "alice" stC7w
    [⟨"c1", "d1", "", 0⟩] (by decide) rfl ⟨"c1", "d1", "", 0⟩
    (List.mem_singleton.mpr rfl)

/-- C7 counterexample: the empty string is a falsy owner filter in
Python, so `search` with `user_id = ""` skips the owner check entirely
and returns the entry mapped to owner `alice`, although `alice ≠ ""` —
the claim as stated fails for the filter U = "". -/
theorem C7_counterexample_empty_filter :
    (search testLib stC7x [1, 0] 10 (some "")).2 = .ok [⟨"c1", "d1", "", 0⟩] ∧
    ∀ m ∈ stC7x.mappings, m.user_id ≠ some "" := by
  refine ⟨rfl, ?_⟩
  decide

end SmartWorkspace
